import Mathlib

/-!
minidb: a shallow embedding of the storage engine

The Go package `imitate_minidb` (files `entry.go`, `db_file.go`, `db.go`,
`errors.go`) is embedded as pure Lean functions.

Modelling conventions
* a byte is a `Fin 256`; a `[]byte` is a `List Byte` (a nil slice and an empty
  slice are both `[]`); where the code reslices its argument (`Decode`), the
  list is the slice up to its capacity;
* `uint32` and `uint16` values are naturals, reduced `% 2^32` where the Go
  code computes in `uint32`;
* file offsets (`int64`) are naturals: a log file is far below `2^63` bytes;
* a file is the list of its bytes; `ReadAt` and `WriteAt` follow `os.File`;
* a Go method that mutates its receiver returns the new receiver together
  with the returned `error` (`none` is Go's `nil`);
* a device failure of `ReadAt` or `WriteAt` is an explicit argument of the
  operation that performs the call (`none`: the device call succeeds);
* a runtime panic (slice bounds out of range) is the outcome `Error.panic`;
* the two scan loops of `db.go` are `for` loops without a bound: they take a
  fuel argument and answer `none` when the fuel runs out;
* the mutex is not modelled: every operation is a sequential step.
-/

namespace Minidb

/-- One byte. -/
abbrev Byte := Fin 256

/-- A Go byte slice. -/
abbrev Bytes := List Byte

/-- The conversion `byte(v)` of an unsigned integer: the low eight bits. -/
def byte (v : Nat) : Byte := ⟨v % 256, Nat.mod_lt _ (by decide)⟩

/-- Outcomes that are not a normal return value: the two sentinel errors of
`errors.go`, `io.EOF`, any other device error, and a runtime panic. -/
inductive Error where
  | ErrKeyNotFound
  | ErrInvalidDBFile
  | EOF
  | device (code : Nat)
  | panic
  deriving DecidableEq, Repr

/-- Constant `entryHeaderSize` of `entry.go`. -/
def entryHeaderSize : Nat := 10

/-- Mark `PUT` (iota 0). -/
def PUT : Nat := 0

/-- Mark `DELETE` (iota 1). -/
def DELETE : Nat := 1

/-- Struct `Entry` of `entry.go`. `KeySize`, `ValueSize` are `uint32`, `Mark`
is `uint16`. -/
structure Entry where
  Key : Bytes
  Value : Bytes
  KeySize : Nat
  ValueSize : Nat
  Mark : Nat
  deriving DecidableEq, Repr

/-- Function `NewEntry`: the sizes are `uint32(len(..))`. -/
def NewEntry (key value : Bytes) (mark : Nat) : Entry :=
  { Key := key
    Value := value
    KeySize := key.length % 2 ^ 32
    ValueSize := value.length % 2 ^ 32
    Mark := mark }

/-- Method `GetSize`: `int64(entryHeaderSize + e.KeySize + e.ValueSize)`; the
sum is computed in `uint32` (the constant is untyped) and then widened. -/
def Entry.GetSize (e : Entry) : Nat :=
  (entryHeaderSize + e.KeySize + e.ValueSize) % 2 ^ 32

/-- The slice expression `b[lo:hi]`, for `lo ≤ hi ≤ len(b)`. -/
def slice (b : Bytes) (lo hi : Nat) : Bytes := (b.take hi).drop lo

/-- The builtin `copy(dst, src)`: the first `min(len(dst), len(src))` bytes of
`dst` are replaced by those of `src`; the result is the new content of `dst`. -/
def copy (dst src : Bytes) : Bytes := src.take dst.length ++ dst.drop src.length

/-- Function `binary.BigEndian.PutUint32`: the four bytes stored into the
destination, `byte(v>>24), byte(v>>16), byte(v>>8), byte(v)`. -/
def PutUint32 (v : Nat) : Bytes :=
  [byte (v / 2 ^ 24), byte (v / 2 ^ 16), byte (v / 2 ^ 8), byte v]

/-- Function `binary.BigEndian.PutUint16`: `byte(v>>8), byte(v)`. -/
def PutUint16 (v : Nat) : Bytes := [byte (v / 2 ^ 8), byte v]

/-- Function `binary.BigEndian.Uint32`:
`b[3] | b[2]<<8 | b[1]<<16 | b[0]<<24` (the operands have disjoint bits, so the
bitwise or is the sum). -/
def Uint32 (b : Bytes) : Nat :=
  (b.getD 3 0).val + (b.getD 2 0).val * 2 ^ 8 + (b.getD 1 0).val * 2 ^ 16
    + (b.getD 0 0).val * 2 ^ 24

/-- Function `binary.BigEndian.Uint16`: `b[1] | b[0]<<8`. -/
def Uint16 (b : Bytes) : Nat := (b.getD 1 0).val + (b.getD 0 0).val * 2 ^ 8

/-- Method `Encode`. The buffer has `GetSize()` bytes; the three header slices
`buf[0:4]`, `buf[4:8]`, `buf[8:10]` need ten bytes, `buf[10:10+KeySize]` (upper
bound computed in `uint32`) needs `10 ≤ hi ≤ len(buf)`; a violated bound
panics. The returned `error` is always `nil`. -/
def Entry.Encode (e : Entry) : Except Error Bytes :=
  let n := e.GetSize
  let buf : Bytes := List.replicate n 0
  if n < 10 then .error .panic
  else
    let hi := (entryHeaderSize + e.KeySize) % 2 ^ 32
    if hi < entryHeaderSize ∨ n < hi then .error .panic
    else
      .ok (PutUint32 e.KeySize ++ PutUint32 e.ValueSize ++ PutUint16 e.Mark
            ++ copy (slice buf entryHeaderSize hi) e.Key
            ++ copy (buf.drop hi) e.Value)

/-- Function `Decode`: reads the ten header bytes; `Key` and `Value` stay nil.
The returned `error` is always `nil`. The slice expressions `buf[0:4]`,
`buf[4:8]`, `buf[8:10]` are bounded by the capacity of `buf`, not by its length,
so the argument here is the slice taken up to its capacity, `buf[:cap(buf)]`
(the slice itself when `len(buf) = cap(buf)`, as for the header buffer of
`Read`); with a capacity below ten the slice expressions panic. -/
def Decode (buf : Bytes) : Except Error Entry :=
  if buf.length < 10 then .error .panic
  else
    .ok { Key := []
          Value := []
          KeySize := Uint32 (slice buf 0 4)
          ValueSize := Uint32 (slice buf 4 8)
          Mark := Uint16 (slice buf 8 10) }

/-- Method `(*os.File).ReadAt(b, off)`: fills `b` with the file bytes from
`off` on; when fewer than `len(b)` bytes are there the error is `io.EOF` and the
rest of `b` keeps its content. -/
def ReadAt (file : Bytes) (b : Bytes) (off : Nat) : Bytes × Option Error :=
  let got := (file.drop off).take b.length
  (copy b got, if got.length < b.length then some .EOF else none)

/-- Method `(*os.File).WriteAt(b, off)` when the device accepts all of `b`: the
bytes replace the file content from `off` on, the file grows as needed (a gap
past the old end reads as zeros); writing no byte leaves the file alone. -/
def WriteAt (file : Bytes) (b : Bytes) (off : Nat) : Bytes :=
  if b.length = 0 then file
  else file.take off ++ List.replicate (off - file.length) 0 ++ b ++ file.drop (off + b.length)

/-- A failing `WriteAt`: the number of bytes that reached the file before the
failure, and the error returned. -/
abbrev WriteFault := Nat × Error

/-- Struct `DBFile` of `db_file.go`: the content of the open file and the
field `Offset`. The header buffer pool is scratch space and is left out. -/
structure DBFile where
  File : Bytes
  Offset : Nat
  deriving DecidableEq, Repr

/-- Function `newInternal` on a file name whose current content is given
(`none`: the file does not exist and `O_CREATE` makes it, empty): `Offset` is
the size reported by `os.Stat`. Failures of `OpenFile` and `Stat` are not
modelled. -/
def newInternal (content : Option Bytes) : DBFile :=
  { File := content.getD [], Offset := (content.getD []).length }

/-- Method `DBFile.Read`. `fault` is a device error of the header `ReadAt`.
The results of the key and value `ReadAt` calls are discarded by the source
(`if df.File.ReadAt(key, offset); err != nil` tests the outer, nil, `err`). -/
def DBFile.Read (df : DBFile) (offset : Nat) (fault : Option Error) : Except Error Entry :=
  match fault with
  | some err => .error err
  | none =>
    let buf : Bytes := List.replicate entryHeaderSize 0
    match ReadAt df.File buf offset with
    | (_, some err) => .error err
    | (buf, none) =>
      match Decode buf with
      | .error err => .error err
      | .ok e =>
        let offset := offset + entryHeaderSize
        let e : Entry :=
          if e.KeySize > 0 then
            { e with Key := (ReadAt df.File (List.replicate e.KeySize 0) offset).1 }
          else e
        let offset := offset + e.KeySize
        let e : Entry :=
          if e.ValueSize > 0 then
            { e with Value := (ReadAt df.File (List.replicate e.ValueSize 0) offset).1 }
          else e
        .ok e

/-- Method `DBFile.Write`: encode, then `WriteAt(buf, df.Offset)`. The field
`Offset` is not assigned anywhere in the method. -/
def DBFile.Write (df : DBFile) (e : Entry) (fault : Option WriteFault) : DBFile × Option Error :=
  match e.Encode with
  | .error err => (df, some err)
  | .ok buf =>
    match fault with
    | some (n, err) => ({ df with File := WriteAt df.File (buf.take n) df.Offset }, some err)
    | none => ({ df with File := WriteAt df.File buf df.Offset }, none)

/-- The Go map `map[string]int64`, used by the source only through lookup,
assignment and `delete`. -/
abbrev Index := Bytes → Option Nat

/-- Map assignment `m[key] = off`. -/
def Index.set (m : Index) (key : Bytes) (off : Nat) : Index :=
  fun k => if k = key then some off else m k

/-- Builtin `delete(m, key)`. -/
def Index.delete (m : Index) (key : Bytes) : Index :=
  fun k => if k = key then none else m k

/-- The empty map `make(map[string]int64)`. -/
def Index.empty : Index := fun _ => none

/-- The part of the store directory outside the canonical log file: the
content of `minidb.data.merge` when that file exists. -/
structure Dir where
  mergeFile : Option Bytes
  deriving DecidableEq, Repr

/-- Struct `MiniDB` of `db.go`. `dbFile.File` is the content of
`dirPath/minidb.data`; `dirPath` stands for the rest of the directory. -/
structure MiniDB where
  indexes : Index
  dbFile : DBFile
  dirPath : Dir

/-- Method `Put`. -/
def MiniDB.Put (db : MiniDB) (key value : Bytes) (fault : Option WriteFault) :
    MiniDB × Option Error :=
  if key.length = 0 then (db, none)
  else
    let offset := db.dbFile.Offset
    let entry := NewEntry key value PUT
    match db.dbFile.Write entry fault with
    | (df, some err) => ({ db with dbFile := df }, some err)
    | (df, none) => ({ db with dbFile := df, indexes := db.indexes.set key offset }, none)

/-- Method `exist`. -/
def MiniDB.exist (db : MiniDB) (key : Bytes) : Except Error Nat :=
  match db.indexes key with
  | none => .error .ErrKeyNotFound
  | some offset => .ok offset

/-- Method `Get`. `fault` is a device error of the header read. -/
def MiniDB.Get (db : MiniDB) (key : Bytes) (fault : Option Error) : Except Error Bytes :=
  match db.exist key with
  | .error err => .error err
  | .ok offset =>
    match db.dbFile.Read offset fault with
    | .error err => .error err
    | .ok e => .ok e.Value

/-- Method `Del`. -/
def MiniDB.Del (db : MiniDB) (key : Bytes) (fault : Option WriteFault) :
    MiniDB × Option Error :=
  if key.length = 0 then (db, none)
  else
    match db.exist key with
    | .error .ErrKeyNotFound => (db, none)
    | .error err => (db, some err)
    | .ok _ =>
      let e := NewEntry key [] DELETE
      match db.dbFile.Write e fault with
      | (df, some err) => ({ db with dbFile := df }, some err)
      | (df, none) => ({ db with dbFile := df, indexes := db.indexes.delete key }, none)

/-- The loop of `loadIndexesFromFile`, from scan offset `offset`. `faults`
gives the device error of the header read at each offset. -/
def MiniDB.loadLoop (faults : Nat → Option Error) : Nat → MiniDB → Nat → Option MiniDB
  | 0, _, _ => none
  | fuel + 1, db, offset =>
    match db.dbFile.Read offset (faults offset) with
    | .error .EOF => some db
    | .error _ => some db
    | .ok e =>
      let idx := db.indexes.set e.Key offset
      let idx := if e.Mark ≠ DELETE then idx.delete e.Key else idx
      MiniDB.loadLoop faults fuel { db with indexes := idx } (offset + e.GetSize)

/-- Method `loadIndexesFromFile`: both a scan that ends at `io.EOF` (`break`)
and one that meets another error (`return`) leave the method without a result
value. -/
def MiniDB.loadIndexesFromFile (db : MiniDB) (faults : Nat → Option Error) (fuel : Nat) :
    Option MiniDB :=
  MiniDB.loadLoop faults fuel db 0

/-- Function `Open` on a directory whose `minidb.data` has content `data`
(`none`: no such file yet). The returned `error` is the one of `NewDBFile`,
nil here. Failures of `Stat`, `MkdirAll`, `Abs` and `NewDBFile` are not
modelled. -/
def Open (data : Option Bytes) (dir : Dir) (faults : Nat → Option Error) (fuel : Nat) :
    Option (MiniDB × Option Error) :=
  let dbFile := newInternal data
  let db : MiniDB := { indexes := Index.empty, dbFile := dbFile, dirPath := dir }
  match db.loadIndexesFromFile faults fuel with
  | none => none
  | some db => some (db, none)

/-- First loop of `Merge`: collect the entries whose scan offset is the one
the index holds for their key. -/
def MiniDB.mergeScan (db : MiniDB) (faults : Nat → Option Error) :
    Nat → Nat → List Entry → Option (Except Error (List Entry))
  | 0, _, _ => none
  | fuel + 1, offset, validEntries =>
    match db.dbFile.Read offset (faults offset) with
    | .error .EOF => some (.ok validEntries)
    | .error err => some (.error err)
    | .ok e =>
      let validEntries :=
        if db.indexes e.Key = some offset then validEntries ++ [e] else validEntries
      MiniDB.mergeScan db faults fuel (offset + e.GetSize) validEntries

/-- Second loop of `Merge`: write the collected entries to the merge file and
assign the index as each write returns. `wfaults i` is the device failure of
the write of the entry at position `i`. -/
def MiniDB.mergeWrite (wfaults : Nat → Option WriteFault) :
    List Entry → Nat → DBFile → Index → DBFile × Index × Option Error
  | [], _, mergeDBFile, indexes => (mergeDBFile, indexes, none)
  | e :: rest, i, mergeDBFile, indexes =>
    let newOffset := mergeDBFile.Offset
    match mergeDBFile.Write e (wfaults i) with
    | (mf, some err) => (mf, indexes, some err)
    | (mf, none) => MiniDB.mergeWrite wfaults rest (i + 1) mf (indexes.set e.Key newOffset)

/-- Method `Merge`. On a write error the deferred `os.Remove` deletes the
merge file. Otherwise the old data file is removed, the merge file renamed to
`minidb.data` and opened again by `NewDBFile`. `Close`, `Remove`, `Rename`,
`NewMergeDBFile` and `NewDBFile` are taken to succeed. -/
def MiniDB.Merge (db : MiniDB) (faults : Nat → Option Error)
    (wfaults : Nat → Option WriteFault) (fuel : Nat) : Option (MiniDB × Option Error) :=
  match db.mergeScan faults fuel 0 [] with
  | none => none
  | some (.error err) => some (db, some err)
  | some (.ok validEntries) =>
    if validEntries.length > 0 then
      let mergeDBFile := newInternal db.dirPath.mergeFile
      match MiniDB.mergeWrite wfaults validEntries 0 mergeDBFile db.indexes with
      | (_, indexes, some err) =>
        some ({ db with indexes := indexes, dirPath := { mergeFile := none } }, some err)
      | (mf, indexes, none) =>
        some ({ indexes := indexes
                dbFile := newInternal (some mf.File)
                dirPath := { mergeFile := none } }, none)
    else some (db, none)

deriving instance DecidableEq for Except

/-- No device error on any header read. -/
def noFaults : Nat → Option Error := fun _ => none

/-- No device failure on any write. -/
def noWriteFaults : Nat → Option WriteFault := fun _ => none

/-- The `w`-byte big-endian representation of `v`: most significant byte
first. -/
def bigEndian : Nat → Nat → Bytes
  | 0, _ => []
  | w + 1, v => bigEndian w (v / 256) ++ [byte v]

/-- The number a byte string denotes when read most significant byte first. -/
def bigEndianValue (b : Bytes) : Nat := b.foldl (fun acc x => acc * 256 + x.val) 0

/-- The key `"a"`. -/
def keyA : Bytes := [97]

/-- The key `"b"`. -/
def keyB : Bytes := [98]

/-- The key `"x"`. -/
def keyX : Bytes := [120]

/-- The value `"1"`. -/
def val1 : Bytes := [49]

/-- The value `"2"`. -/
def val2 : Bytes := [50]

/-- The value `"3"`. -/
def val3 : Bytes := [51]

/-- The value `"9"`. -/
def val9 : Bytes := [57]

/-- The bytes of a well-formed record: header, key, value. -/
def record (key value : Bytes) (mark : Nat) : Bytes :=
  bigEndian 4 key.length ++ bigEndian 4 value.length ++ bigEndian 2 mark ++ key ++ value

/-- The store that `Open` returns on an empty directory. -/
def emptyStore : MiniDB :=
  { indexes := Index.empty, dbFile := { File := [], Offset := 0 }, dirPath := { mergeFile := none } }

/-- The store of the merge scenario just before `Merge`: on an empty store,
`Put("a","1")`, `Put("b","2")`, `Put("a","3")`, `Del("b")`. -/
def scenario : MiniDB :=
  ((((emptyStore.Put keyA val1 none).1.Put keyB val2 none).1.Put keyA val3 none).1.Del keyB none).1

/-- A store opened on a log that holds the one record PUT x = 9, after
`Put("a","1")` and `Put("b","2")`. -/
def reopened : Option MiniDB :=
  (Open (some (record keyX val9 PUT)) { mergeFile := none } noFaults 2).map
    (fun r => ((r.1.Put keyA val1 none).1.Put keyB val2 none).1)

/-- Device behaviour in which the second write to the merge file fails before
any byte is stored. -/
def secondWriteFails : Nat → Option WriteFault :=
  fun i => if i = 1 then some (0, .device 5) else none

/-- A log of three well-formed records: PUT x = 9, DELETE a, DELETE b, at
offsets 0, 12 and 23. -/
def threeRecords : Bytes :=
  record keyX val9 PUT ++ record keyA [] DELETE ++ record keyB [] DELETE

/-- A store whose log holds PUT x = 9, PUT a = 1, PUT b = 2 at offsets 0, 12, 24
and whose index maps a to 12 and b to 24. -/
def twoLive : MiniDB :=
  { indexes := (Index.empty.set keyA 12).set keyB 24
    dbFile :=
      { File := record keyX val9 PUT ++ record keyA val1 PUT ++ record keyB val2 PUT
        Offset := 36 }
    dirPath := { mergeFile := none } }

/-- A value of `2^32` zero bytes: its length does not fit the `uint32` field
`ValueSize`. -/
def hugeValue : Bytes := List.replicate 4294967296 0

/-- A ten-byte header whose mark field is 2, neither PUT nor DELETE: key size
1, value size 1. -/
def headerMarkTwo : Bytes := bigEndian 4 1 ++ bigEndian 4 1 ++ bigEndian 2 2

/-- A log cut inside its only record: the header announces a one-byte key and
a one-byte value, the key byte is there, the value byte is not (11 bytes). -/
def tornRecord : Bytes := bigEndian 4 1 ++ bigEndian 4 1 ++ bigEndian 2 PUT ++ keyA

/-- Device behaviour in which the header read at offset 0 fails with a device
error; every other read succeeds. -/
def readFailsAtZero : Nat → Option Error :=
  fun off => if off = 0 then some (.device 5) else none

/-- A log cut inside a tombstone: the header announces a DELETE record with a
five-byte key, only the first key byte is there (11 bytes). -/
def tornTombstone : Bytes := bigEndian 4 5 ++ bigEndian 4 0 ++ bigEndian 2 DELETE ++ keyA

/-- A value of 11 bytes that reads as the start of a record: the header of a
DELETE record with a one-byte key and a 20-byte value, then the key `"x"`. -/
def fakeTail : Bytes := bigEndian 4 1 ++ bigEndian 4 20 ++ bigEndian 2 DELETE ++ keyX

/-- The log left by a first session on an empty directory that calls
`Put("a", fakeTail)` and then `Put("a", "")`. -/
def sessionOneLog : Bytes :=
  ((emptyStore.Put keyA fakeTail none).1.Put keyA [] none).1.dbFile.File

/-- A log of two well-formed records: PUT a = 1, then DELETE a. -/
def putThenDelete : Bytes := record keyA val1 PUT ++ record keyA [] DELETE

/-- An entry as `Decode` returns it for the header bytes FF FF FF FF 00 00 00 00
00 00: key size `2^32 - 1`, value size 0. -/
def maxKeyEntry : Entry :=
  { Key := [], Value := [], KeySize := 4294967295, ValueSize := 0, Mark := 0 }

/-- A ten-byte log whose header announces a key of `2^32 - 10` bytes and an
empty value: FF FF FF F6 00 00 00 00 00 00. -/
def wrapHeader : Bytes := [255, 255, 255, 246, 0, 0, 0, 0, 0, 0]

/-- A store on the log `wrapHeader`, with any index. -/
def wrapStore (indexes : Index) : MiniDB :=
  { indexes := indexes
    dbFile := { File := wrapHeader, Offset := 10 }
    dirPath := { mergeFile := none } }

/-! The codec -/

theorem byte_val (v : Nat) : (byte v).val = v % 256 := rfl

theorem Uint32_PutUint32 (n : Nat) (h : n < 2 ^ 32) : Uint32 (PutUint32 n) = n := by
  simp only [Uint32, PutUint32, List.getD_cons_zero, List.getD_cons_succ, byte_val]
  omega

theorem Uint16_PutUint16 (n : Nat) (h : n < 2 ^ 16) : Uint16 (PutUint16 n) = n := by
  simp only [Uint16, PutUint16, List.getD_cons_zero, List.getD_cons_succ, byte_val]
  omega

theorem copy_same_length (dst src : Bytes) (h : dst.length = src.length) : copy dst src = src := by
  unfold copy
  rw [h, List.take_length, List.drop_eq_nil_of_le (le_of_eq h), List.append_nil]

theorem GetSize_NewEntry (key value : Bytes) (mark : Nat)
    (h : 10 + key.length + value.length < 2 ^ 32) :
    (NewEntry key value mark).GetSize = 10 + key.length + value.length := by
  simp only [Entry.GetSize, NewEntry, entryHeaderSize]
  omega

theorem Encode_NewEntry (key value : Bytes) (mark : Nat)
    (h : 10 + key.length + value.length < 2 ^ 32) :
    (NewEntry key value mark).Encode
      = .ok (PutUint32 key.length ++ PutUint32 value.length ++ PutUint16 mark ++ key ++ value) := by
  have hk : key.length % 2 ^ 32 = key.length := Nat.mod_eq_of_lt (by omega)
  have hv : value.length % 2 ^ 32 = value.length := Nat.mod_eq_of_lt (by omega)
  have hg := GetSize_NewEntry key value mark h
  have hhi : (entryHeaderSize + key.length) % 2 ^ 32 = 10 + key.length := by
    simp only [entryHeaderSize]; omega
  unfold Entry.Encode
  simp only [hg]
  simp only [NewEntry, hk, hv, hhi, entryHeaderSize]
  rw [if_neg (by omega), if_neg (by omega)]
  rw [copy_same_length _ key (by simp [slice]; omega),
      copy_same_length _ value (by simp; omega)]

theorem bigEndian_four (v : Nat) : bigEndian 4 v = PutUint32 v := by
  simp [bigEndian, PutUint32, Nat.div_div_eq_div_mul]

theorem bigEndian_two (v : Nat) : bigEndian 2 v = PutUint16 v := by
  simp [bigEndian, PutUint16]

theorem bigEndianValue_PutUint32 (n : Nat) (h : n < 2 ^ 32) :
    bigEndianValue (PutUint32 n) = n := by
  simp only [bigEndianValue, PutUint32, List.foldl_cons, List.foldl_nil, byte_val]
  omega

theorem bigEndianValue_PutUint16 (n : Nat) (h : n < 2 ^ 16) :
    bigEndianValue (PutUint16 n) = n := by
  simp only [bigEndianValue, PutUint16, List.foldl_cons, List.foldl_nil, byte_val]
  omega

theorem header_take (a b c rest : Bytes) (ha : a.length = 4) (hb : b.length = 4)
    (hc : c.length = 2) :
    slice (a ++ b ++ c ++ rest) 0 4 = a ∧ slice (a ++ b ++ c ++ rest) 4 8 = b
      ∧ slice (a ++ b ++ c ++ rest) 8 10 = c ∧ (a ++ b ++ c ++ rest).drop 10 = rest := by
  match a, b, c, ha, hb, hc with
  | [a0, a1, a2, a3], [b0, b1, b2, b3], [c0, c1], _, _, _ => simp [slice]

theorem Decode_header (ks vs m : Nat) (hk : ks < 2 ^ 32) (hv : vs < 2 ^ 32) (hm : m < 2 ^ 16) :
    Decode (PutUint32 ks ++ PutUint32 vs ++ PutUint16 m)
      = .ok { Key := [], Value := [], KeySize := ks, ValueSize := vs, Mark := m } := by
  obtain ⟨h1, h2, h3, _⟩ := header_take (PutUint32 ks) (PutUint32 vs) (PutUint16 m) [] rfl rfl rfl
  simp only [List.append_nil] at h1 h2 h3
  unfold Decode
  rw [if_neg (by simp [PutUint32, PutUint16]), h1, h2, h3, Uint32_PutUint32 ks hk,
    Uint32_PutUint32 vs hv, Uint16_PutUint16 m hm]

theorem take_ten_header (ks vs m : Nat) (rest : Bytes) :
    (PutUint32 ks ++ PutUint32 vs ++ PutUint16 m ++ rest).take 10
      = PutUint32 ks ++ PutUint32 vs ++ PutUint16 m := by
  simp [PutUint32, PutUint16]

/-! Reading back what was written -/

theorem WriteAt_drop (file b : Bytes) (off : Nat) (hb : b ≠ []) :
    (WriteAt file b off).drop off = b ++ file.drop (off + b.length) := by
  have hl : b.length ≠ 0 := by simpa using hb
  have hlen : (file.take off ++ List.replicate (off - file.length) (0 : Byte)).length = off := by
    simp only [List.length_append, List.length_take, List.length_replicate]; omega
  unfold WriteAt
  rw [if_neg hl, List.append_assoc]
  exact List.drop_left' hlen

theorem ReadAt_of_drop (file x rest : Bytes) (off : Nat) (h : file.drop off = x ++ rest) :
    ReadAt file (List.replicate x.length 0) off = (x, none) := by
  unfold ReadAt
  simp only [h, List.length_replicate, List.take_left']
  rw [copy_same_length _ x (by simp)]
  simp

theorem Read_of_record (df : DBFile) (off : Nat) (key value rest : Bytes) (m : Nat)
    (hm : m < 2 ^ 16) (hk : key.length < 2 ^ 32) (hv : value.length < 2 ^ 32)
    (h : df.File.drop off
      = PutUint32 key.length ++ PutUint32 value.length ++ PutUint16 m ++ key ++ value ++ rest) :
    df.Read off none
      = .ok { Key := key, Value := value, KeySize := key.length, ValueSize := value.length,
              Mark := m } := by
  have hhdr : ReadAt df.File (List.replicate entryHeaderSize 0) off
      = (PutUint32 key.length ++ PutUint32 value.length ++ PutUint16 m, none) := by
    have := ReadAt_of_drop df.File (PutUint32 key.length ++ PutUint32 value.length ++ PutUint16 m)
      (key ++ value ++ rest) off (by rw [h]; simp)
    simpa [PutUint32, PutUint16, entryHeaderSize] using this
  have hdk : df.File.drop (off + entryHeaderSize) = key ++ (value ++ rest) := by
    rw [← List.drop_drop, h]; simp [PutUint32, PutUint16, entryHeaderSize]
  have hdv : df.File.drop (off + entryHeaderSize + key.length) = value ++ rest := by
    rw [← List.drop_drop, hdk]; simp
  have hkey := ReadAt_of_drop df.File key (value ++ rest) _ hdk
  have hval := ReadAt_of_drop df.File value rest _ hdv
  unfold DBFile.Read
  simp only [hhdr, Decode_header _ _ _ hk hv hm]
  by_cases hk0 : key.length > 0 <;> by_cases hv0 : value.length > 0
  · simp [hk0, hv0, hkey, hval]
  · have : value = [] := by simpa using hv0
    subst this
    simp [hk0, hkey]
  · have : key = [] := by simpa using hk0
    subst this
    simp [hv0] at hval ⊢
    simp [hval]
  · have : key = [] := by simpa using hk0
    have : value = [] := by simpa using hv0
    subst_vars
    simp

/-- The bytes of the record that `Write` stores for `NewEntry key value mark`. -/
theorem Write_NewEntry (df : DBFile) (key value : Bytes) (mark : Nat)
    (h : 10 + key.length + value.length < 2 ^ 32) :
    df.Write (NewEntry key value mark) none
      = ({ File := WriteAt df.File (PutUint32 key.length ++ PutUint32 value.length
              ++ PutUint16 mark ++ key ++ value) df.Offset
           Offset := df.Offset }, none) := by
  unfold DBFile.Write
  rw [Encode_NewEntry key value mark h]

theorem Put_ok (db : MiniDB) (key value : Bytes) (hk : key ≠ [])
    (h : 10 + key.length + value.length < 2 ^ 32) :
    db.Put key value none
      = ({ indexes := db.indexes.set key db.dbFile.Offset
           dbFile :=
             { File := WriteAt db.dbFile.File (PutUint32 key.length ++ PutUint32 value.length
                 ++ PutUint16 PUT ++ key ++ value) db.dbFile.Offset
               Offset := db.dbFile.Offset }
           dirPath := db.dirPath }, none) := by
  have hl : key.length ≠ 0 := by simpa using hk
  unfold MiniDB.Put
  rw [if_neg hl]
  simp only [Write_NewEntry _ key value PUT h]

theorem Index.set_self (m : Index) (key : Bytes) (off : Nat) : m.set key off key = some off := by
  simp [Index.set]

theorem Index.delete_self (m : Index) (key : Bytes) : m.delete key key = none := by
  simp [Index.delete]

theorem record_ne_nil (ks vs m : Nat) (key value : Bytes) :
    PutUint32 ks ++ PutUint32 vs ++ PutUint16 m ++ key ++ value ≠ [] := by
  simp [PutUint32]
/-! Store operations -/

theorem Put_Get (db : MiniDB) (key value : Bytes) (hk : key ≠ [])
    (h : 10 + key.length + value.length < 2 ^ 32) :
    (db.Put key value none).2 = none ∧ (db.Put key value none).1.Get key none = .ok value := by
  rw [Put_ok db key value hk h]
  refine ⟨rfl, ?_⟩
  simp only [MiniDB.Get, MiniDB.exist, Index.set_self]
  rw [Read_of_record _ _ key value _ PUT (by decide) (by omega) (by omega)
    (WriteAt_drop _ _ _ (record_ne_nil _ _ _ _ _))]

theorem Del_ok (db : MiniDB) (key : Bytes) (hk : key ≠ []) (h : 10 + key.length < 2 ^ 32) :
    (db.Del key none).2 = none := by
  have hl : key.length ≠ 0 := by simpa using hk
  unfold MiniDB.Del
  rw [if_neg hl]
  cases hx : db.indexes key with
  | none => simp [MiniDB.exist, hx]
  | some off =>
    simp only [MiniDB.exist, hx]
    rw [Write_NewEntry _ key [] DELETE (by simpa using h)]

theorem Del_Get (db : MiniDB) (key : Bytes) (f : Option WriteFault) (g : Option Error)
    (hk : key ≠ []) (hd : (db.Del key f).2 = none) :
    (db.Del key f).1.Get key g = .error .ErrKeyNotFound := by
  have hl : key.length ≠ 0 := by simpa using hk
  unfold MiniDB.Del at hd ⊢
  rw [if_neg hl] at hd ⊢
  cases hx : db.indexes key with
  | none => simp [MiniDB.exist, MiniDB.Get, hx]
  | some off =>
    simp only [MiniDB.exist, hx] at hd ⊢
    rcases hw : db.dbFile.Write (NewEntry key [] DELETE) f with ⟨df, _ | err⟩
    · simp [MiniDB.Get, MiniDB.exist, Index.delete_self]
    · rw [hw] at hd
      simp at hd

theorem Open_empty : Open none { mergeFile := none } noFaults 1 = some (emptyStore, none) := rfl

theorem copy_length (dst src : Bytes) : (copy dst src).length = dst.length := by
  simp only [copy, List.length_append, List.length_take, List.length_drop]
  omega

theorem copy_of_le (dst src : Bytes) (h : dst.length ≤ src.length) :
    copy dst src = src.take dst.length := by
  unfold copy
  rw [List.drop_eq_nil_of_le h, List.append_nil]

theorem Encode_shape (key value : Bytes) (mark : Nat) (buf : Bytes)
    (h : (NewEntry key value mark).Encode = .ok buf) :
    10 + key.length % 2 ^ 32 + value.length % 2 ^ 32 < 2 ^ 32
      ∧ ∃ k : Bytes, k.length = key.length % 2 ^ 32
        ∧ buf = PutUint32 k.length ++ PutUint32 (value.length % 2 ^ 32) ++ PutUint16 mark
            ++ k ++ value.take (value.length % 2 ^ 32) := by
  have hks : key.length % 2 ^ 32 < 2 ^ 32 := Nat.mod_lt _ (by decide)
  have hvs : value.length % 2 ^ 32 < 2 ^ 32 := Nat.mod_lt _ (by decide)
  have hvl : value.length % 2 ^ 32 ≤ value.length := Nat.mod_le _ _
  unfold Entry.Encode at h
  simp only [Entry.GetSize, NewEntry, entryHeaderSize] at h
  generalize hk : key.length % 2 ^ 32 = ks at h hks ⊢
  generalize hv : value.length % 2 ^ 32 = vs at h hvs hvl ⊢
  by_cases c1 : (10 + ks + vs) % 2 ^ 32 < 10
  · rw [if_pos c1] at h; cases h
  · rw [if_neg c1] at h
    by_cases c2 : (10 + ks) % 2 ^ 32 < 10 ∨ (10 + ks + vs) % 2 ^ 32 < (10 + ks) % 2 ^ 32
    · rw [if_pos c2] at h; cases h
    · rw [if_neg c2] at h
      have hn : (10 + ks + vs) % 2 ^ 32 = 10 + ks + vs := by omega
      have hhi : (10 + ks) % 2 ^ 32 = 10 + ks := by omega
      rw [hn, hhi] at h
      have hb : buf = PutUint32 ks ++ PutUint32 vs ++ PutUint16 mark
          ++ copy (slice (List.replicate (10 + ks + vs) 0) 10 (10 + ks)) key
          ++ copy ((List.replicate (10 + ks + vs) 0).drop (10 + ks)) value := by
        injection h with h; exact h.symm
      have hl1 : (slice (List.replicate (10 + ks + vs) (0 : Byte)) 10 (10 + ks)).length = ks := by
        simp only [slice, List.length_drop, List.length_take, List.length_replicate]; omega
      have hl2 : ((List.replicate (10 + ks + vs) (0 : Byte)).drop (10 + ks)).length = vs := by
        simp only [List.length_drop, List.length_replicate]; omega
      refine ⟨by omega, copy (slice (List.replicate (10 + ks + vs) 0) 10 (10 + ks)) key, ?_, ?_⟩
      · rw [copy_length, hl1]
      · rw [hb, copy_length, hl1, copy_of_le _ value (by rw [hl2]; exact hvl), hl2]

theorem Encode_isOk (key value : Bytes) (mark : Nat)
    (h : 10 + key.length % 2 ^ 32 + value.length % 2 ^ 32 < 2 ^ 32) :
    ∃ buf, (NewEntry key value mark).Encode = .ok buf := by
  unfold Entry.Encode
  simp only [Entry.GetSize, NewEntry, entryHeaderSize]
  rw [if_neg (by omega), if_neg (by omega)]
  exact ⟨_, rfl⟩

theorem Put_returns_nil (db : MiniDB) (key value : Bytes)
    (h : 10 + key.length % 2 ^ 32 + value.length % 2 ^ 32 < 2 ^ 32) :
    (db.Put key value none).2 = none := by
  unfold MiniDB.Put
  by_cases hl : key.length = 0
  · rw [if_pos hl]
  · rw [if_neg hl]
    obtain ⟨buf, hb⟩ := Encode_isOk key value PUT h
    simp only [DBFile.Write, hb]

theorem Put_Get_stored (db : MiniDB) (key value : Bytes) (f : Option WriteFault)
    (hk : key ≠ []) (hok : (db.Put key value f).2 = none) :
    (db.Put key value f).1.Get key none = .ok (value.take (value.length % 2 ^ 32)) := by
  have hl : key.length ≠ 0 := by simpa using hk
  have hvl : value.length % 2 ^ 32 ≤ value.length := Nat.mod_le _ _
  unfold MiniDB.Put at hok ⊢
  rw [if_neg hl] at hok ⊢
  cases hb : (NewEntry key value PUT).Encode with
  | error err => simp [DBFile.Write, hb] at hok
  | ok buf =>
    cases f with
    | some w => simp [DBFile.Write, hb] at hok
    | none =>
      simp only [DBFile.Write, hb]
      obtain ⟨hsz, k, hkl, hbuf⟩ := Encode_shape key value PUT buf hb
      have htl : (value.take (value.length % 2 ^ 32)).length = value.length % 2 ^ 32 := by
        rw [List.length_take]; omega
      have hbuf2 : buf = PutUint32 k.length
          ++ PutUint32 (value.take (value.length % 2 ^ 32)).length ++ PutUint16 PUT ++ k
          ++ value.take (value.length % 2 ^ 32) := by
        rw [htl]; exact hbuf
      simp only [MiniDB.Get, MiniDB.exist, Index.set_self]
      have hne : buf ≠ [] := by rw [hbuf]; simp [PutUint32]
      have hd := WriteAt_drop db.dbFile.File buf db.dbFile.Offset hne
      rw [Read_of_record _ _ k (value.take (value.length % 2 ^ 32)) _ PUT (by decide)
        (by omega) (by omega) (by rw [hd]; rw [hbuf2])]

/-! The claims -/

/-- Claim C1 as stated fails. On the store opened on an empty directory, with
the key `"a"`, `v1 = "1"` and `v2` the value of `2^32` zero bytes, both `Put`s
return nil, and `Get("a")` then returns the empty value with no error, not `v2`:
`uint32(len(v2))` is 0, so the record stores no value byte. -/
theorem Put_huge_value_lost :
    keyA ≠ [] ∧ val1 ≠ hugeValue ∧ hugeValue.length = 2 ^ 32
      ∧ (emptyStore.Put keyA val1 none).2 = none
      ∧ ((emptyStore.Put keyA val1 none).1.Put keyA hugeValue none).2 = none
      ∧ ((emptyStore.Put keyA val1 none).1.Put keyA hugeValue none).1.Get keyA none = .ok []
      ∧ ((emptyStore.Put keyA val1 none).1.Put keyA hugeValue none).1.Get keyA none
          ≠ .ok hugeValue := by
  have hlen : hugeValue.length = 4294967296 := by
    unfold hugeValue; exact List.length_replicate _ _
  have hmod : hugeValue.length % 2 ^ 32 = 0 := by rw [hlen]; decide
  have hne : val1 ≠ hugeValue := by
    intro h
    have hl := congrArg List.length h
    rw [hlen] at hl
    exact absurd hl (by decide)
  have h2 : ((emptyStore.Put keyA val1 none).1.Put keyA hugeValue none).2 = none :=
    Put_returns_nil _ keyA hugeValue (by rw [hmod]; decide)
  have hg := Put_Get_stored (emptyStore.Put keyA val1 none).1 keyA hugeValue none (by decide) h2
  rw [hmod, List.take_zero] at hg
  refine ⟨by decide, hne, by rw [hlen]; decide, Put_returns_nil _ keyA val1 (by decide), h2,
    hg, ?_⟩
  rw [hg]
  intro h
  have hl := congrArg List.length (Except.ok.inj h)
  rw [hlen] at hl
  exact absurd hl (by decide)

/-- Claim C1, amended (last write wins on one key, for a value whose length fits
32 bits). For every store, every non-empty key, every value `v1` and every value
`v2` with `len(v2) < 2^32`, and whatever the device does: once `Put(key, v2)`,
issued after `Put(key, v1)`, has returned nil, `Get(key)` returns `v2` with no
error. And when the record fits the 32-bit size fields and the device accepts
the writes, the `Put`s do return nil. -/
theorem Put_Put_Get (db : MiniDB) (key v1 v2 : Bytes) (f1 f2 : Option WriteFault)
    (hk : key ≠ []) (hv : v2.length < 2 ^ 32) :
    (((db.Put key v1 f1).1.Put key v2 f2).2 = none →
        ((db.Put key v1 f1).1.Put key v2 f2).1.Get key none = .ok v2)
      ∧ (10 + key.length + v2.length < 2 ^ 32 →
          ((db.Put key v1 none).1.Put key v2 none).2 = none)
      ∧ (10 + key.length + v1.length < 2 ^ 32 → (db.Put key v1 none).2 = none) := by
  refine ⟨fun hok => ?_, fun h2 => (Put_Get _ key v2 hk h2).1,
    fun h1 => (Put_Get db key v1 hk h1).1⟩
  have hg := Put_Get_stored (db.Put key v1 f1).1 key v2 f2 hk hok
  rwa [Nat.mod_eq_of_lt hv, List.take_length] at hg

theorem Put_Put_Get_witness :
    keyA ≠ [] ∧ val2.length < 2 ^ 32
      ∧ (emptyStore.Put keyA val1 none).2 = none
      ∧ ((emptyStore.Put keyA val1 none).1.Put keyA val2 none).2 = none
      ∧ ((emptyStore.Put keyA val1 none).1.Put keyA val2 none).1.Get keyA none = .ok val2 :=
  ⟨by decide, by decide,
    (Put_Put_Get emptyStore keyA val1 val2 none none (by decide) (by decide)).2.2 (by decide),
    (Put_Put_Get emptyStore keyA val1 val2 none none (by decide) (by decide)).2.1 (by decide),
    (Put_Put_Get emptyStore keyA val1 val2 none none (by decide) (by decide)).1
      ((Put_Put_Get emptyStore keyA val1 val2 none none (by decide) (by decide)).2.1
        (by decide))⟩

/-- Claim C2 (index invariant), evaluated at the failing input. On the store
opened on an empty directory, `Put("a","1")` then `Put("b","2")` both return
nil, both keys are indexed at offset 0, the log holds only the record of `"b"`,
and `Get("a")` returns `"2"`, the value of the other key. -/
theorem Put_second_key_overwrites_first :
    (emptyStore.Put keyA val1 none).2 = none
      ∧ ((emptyStore.Put keyA val1 none).1.Put keyB val2 none).2 = none
      ∧ ((emptyStore.Put keyA val1 none).1.Put keyB val2 none).1.indexes keyA = some 0
      ∧ ((emptyStore.Put keyA val1 none).1.Put keyB val2 none).1.indexes keyB = some 0
      ∧ ((emptyStore.Put keyA val1 none).1.Put keyB val2 none).1.dbFile.File
          = record keyB val2 PUT
      ∧ ((emptyStore.Put keyA val1 none).1.Put keyB val2 none).1.Get keyA none = .ok val2
      ∧ ((emptyStore.Put keyA val1 none).1.Put keyB val2 none).1.Get keyB none = .ok val2 := by
  decide

/-- Claim C3 (a deleted key is not found). For every store, every non-empty key
and every value: once `Del(key)`, issued after `Put(key, value)`, has returned
nil, `Get(key)` fails with `ErrKeyNotFound`, whatever the device did; and when
the record fits the 32-bit size fields and the device accepts the writes, `Put`
and `Del` do return nil. -/
theorem Put_Del_Get (db : MiniDB) (key value : Bytes) (f1 f2 : Option WriteFault)
    (g : Option Error) (hk : key ≠ []) :
    (((db.Put key value f1).1.Del key f2).2 = none →
        ((db.Put key value f1).1.Del key f2).1.Get key g = .error .ErrKeyNotFound)
      ∧ (10 + key.length + value.length < 2 ^ 32 →
          (db.Put key value none).2 = none
            ∧ ((db.Put key value none).1.Del key none).2 = none) :=
  ⟨fun hd => Del_Get _ key f2 g hk hd,
    fun h => ⟨(Put_Get db key value hk h).1, Del_ok _ key hk (by omega)⟩⟩

theorem Put_Del_Get_witness :
    keyA ≠ []
      ∧ (emptyStore.Put keyA val1 none).2 = none
      ∧ ((emptyStore.Put keyA val1 none).1.Del keyA none).2 = none
      ∧ ((emptyStore.Put keyA val1 none).1.Del keyA none).1.Get keyA none
          = .error .ErrKeyNotFound :=
  ⟨by decide,
    ((Put_Del_Get emptyStore keyA val1 none none none (by decide)).2 (by decide)).1,
    ((Put_Del_Get emptyStore keyA val1 none none none (by decide)).2 (by decide)).2,
    (Put_Del_Get emptyStore keyA val1 none none none (by decide)).1
      ((Put_Del_Get emptyStore keyA val1 none none none (by decide)).2 (by decide)).2⟩

/-- Claim C4 (recovery), evaluated at the failing input. `Open` on a log that
holds the single record PUT a = 1 returns a store whose index has no entry for
`"a"`; on the log PUT a = 1, DELETE a it returns a store whose index maps `"a"`
to offset 12, the offset of the DELETE record. -/
theorem Open_drops_put_keeps_delete :
    (Open (some (record keyA val1 PUT)) { mergeFile := none } noFaults 2).map
        (fun r => (r.1.indexes keyA, r.2)) = some (none, none)
      ∧ (Open (some (record keyA val1 PUT ++ record keyA [] DELETE)) { mergeFile := none }
          noFaults 3).map (fun r => (r.1.indexes keyA, r.2)) = some (some 12, none) := by
  decide

/-- Claim C5 (concrete merge scenario), evaluated. After `Put("a","1")`,
`Put("b","2")`, `Put("a","3")`, `Del("b")` on the empty store, `Merge` returns
nil, `Get("a")` returns the empty value (not `"3"`), `Get("b")` fails with
`ErrKeyNotFound`, and the log is the DELETE record of `"b"` followed by the
stray byte `"3"`. -/
theorem Merge_scenario :
    (scenario.Merge noFaults noWriteFaults 2).map
        (fun r => (r.2, r.1.Get keyA none, r.1.Get keyB none, r.1.dbFile.File))
      = some (none, .ok [], .error .ErrKeyNotFound, record keyB [] DELETE ++ val3) := by
  decide

/-- Claim C6 (merge preserves lookups), evaluated at the failing input. On the
store opened on a log holding PUT x = 9, after `Put("a","1")` and
`Put("b","2")`, the key `"a"` is in the index (offset 12) and `Get("a")` returns
`"2"` with no error; after a `Merge` that returns nil, `"a"` is still indexed at
12, the log is the 12-byte record of `"b"`, and `Get("a")` fails with `io.EOF`. -/
theorem Merge_loses_key :
    reopened.map (fun db => (db.indexes keyA, db.Get keyA none, db.dbFile))
        = some (some 12, .ok val2,
            { File := record keyX val9 PUT ++ record keyB val2 PUT, Offset := 12 })
      ∧ (reopened.bind (fun db => db.Merge noFaults noWriteFaults 3)).map
          (fun r => (r.2, r.1.indexes keyA, r.1.Get keyA none, r.1.dbFile))
        = some (none, some 12, .error .EOF, { File := record keyB val2 PUT, Offset := 12 }) := by
  decide

/-- Claim C7 (codec round trip). For every key, value and mark (a `uint16`)
with `10 + len(key) + len(value) < 2^32`, `NewEntry(key, value, mark).Encode()`
returns a buffer, and `Decode` of its first ten bytes returns, with no error, an
entry with `KeySize = len(key)`, `ValueSize = len(value)` and `Mark = mark`. -/
theorem Decode_Encode_header (key value : Bytes) (mark : Nat) (hm : mark < 2 ^ 16)
    (h : 10 + key.length + value.length < 2 ^ 32) :
    ∃ buf e, (NewEntry key value mark).Encode = .ok buf
      ∧ Decode (buf.take 10) = .ok e
      ∧ e.KeySize = key.length ∧ e.ValueSize = value.length ∧ e.Mark = mark := by
  refine ⟨_, ⟨[], [], key.length, value.length, mark⟩, Encode_NewEntry key value mark h, ?_,
    rfl, rfl, rfl⟩
  rw [List.append_assoc _ key value, take_ten_header]
  exact Decode_header _ _ _ (by omega) (by omega) hm

theorem Decode_Encode_header_witness :
    DELETE < 2 ^ 16 ∧ 10 + keyA.length + val1.length < 2 ^ 32
      ∧ ∃ buf e, (NewEntry keyA val1 DELETE).Encode = .ok buf
        ∧ Decode (buf.take 10) = .ok e
        ∧ e.KeySize = keyA.length ∧ e.ValueSize = val1.length ∧ e.Mark = DELETE :=
  ⟨by decide, by decide, Decode_Encode_header keyA val1 DELETE (by decide) (by decide)⟩

/-- Claim C8 (bit-exact record layout). For every key, value and mark (a
`uint16`) with `10 + len(key) + len(value) < 2^32`, `Encode` returns, without
error, a buffer of exactly `10 + len(key) + len(value)` bytes: bytes 0..3 are
`len(key)` big-endian, bytes 4..7 are `len(value)` big-endian, bytes 8..9 are
the mark big-endian, then come the key bytes and then the value bytes, with
nothing in between or after. -/
theorem Encode_layout (key value : Bytes) (mark : Nat) (hm : mark < 2 ^ 16)
    (h : 10 + key.length + value.length < 2 ^ 32) :
    ∃ buf, (NewEntry key value mark).Encode = .ok buf
      ∧ buf.length = 10 + key.length + value.length
      ∧ buf = record key value mark
      ∧ slice buf 0 4 = bigEndian 4 key.length
      ∧ bigEndianValue (slice buf 0 4) = key.length
      ∧ slice buf 4 8 = bigEndian 4 value.length
      ∧ bigEndianValue (slice buf 4 8) = value.length
      ∧ slice buf 8 10 = bigEndian 2 mark
      ∧ bigEndianValue (slice buf 8 10) = mark
      ∧ slice buf 10 (10 + key.length) = key
      ∧ buf.drop (10 + key.length) = value := by
  refine ⟨_, Encode_NewEntry key value mark h, ?_⟩
  obtain ⟨h1, h2, h3, h4⟩ := header_take (PutUint32 key.length) (PutUint32 value.length)
    (PutUint16 mark) (key ++ value) rfl rfl rfl
  have e : PutUint32 key.length ++ PutUint32 value.length ++ PutUint16 mark ++ key ++ value
      = PutUint32 key.length ++ PutUint32 value.length ++ PutUint16 mark ++ (key ++ value) := by
    simp
  have hr : record key value mark
      = PutUint32 key.length ++ PutUint32 value.length ++ PutUint16 mark ++ (key ++ value) := by
    simp [record, bigEndian_four, bigEndian_two]
  rw [e, h1, h2, h3]
  refine ⟨?_, hr.symm, (bigEndian_four _).symm, bigEndianValue_PutUint32 _ (by omega),
    (bigEndian_four _).symm, bigEndianValue_PutUint32 _ (by omega),
    (bigEndian_two _).symm, bigEndianValue_PutUint16 _ hm, ?_, ?_⟩
  · simp [PutUint32, PutUint16]; omega
  · have : slice (PutUint32 key.length ++ PutUint32 value.length ++ PutUint16 mark ++ (key ++ value))
        10 (10 + key.length) = ((PutUint32 key.length ++ PutUint32 value.length ++ PutUint16 mark
          ++ (key ++ value)).drop 10).take key.length := by
      simp only [slice, List.drop_take]; congr 1; omega
    rw [this, h4]; simp
  · rw [← List.drop_drop, h4]; simp

theorem Encode_layout_witness :
    PUT < 2 ^ 16 ∧ 10 + keyA.length + val3.length < 2 ^ 32
      ∧ ∃ buf, (NewEntry keyA val3 PUT).Encode = .ok buf
        ∧ buf.length = 10 + keyA.length + val3.length
        ∧ buf = record keyA val3 PUT
        ∧ slice buf 0 4 = bigEndian 4 keyA.length
        ∧ bigEndianValue (slice buf 0 4) = keyA.length
        ∧ slice buf 4 8 = bigEndian 4 val3.length
        ∧ bigEndianValue (slice buf 4 8) = val3.length
        ∧ slice buf 8 10 = bigEndian 2 PUT
        ∧ bigEndianValue (slice buf 8 10) = PUT
        ∧ slice buf 10 (10 + keyA.length) = keyA
        ∧ buf.drop (10 + keyA.length) = val3 :=
  ⟨by decide, by decide, Encode_layout keyA val3 PUT (by decide) (by decide)⟩

/-- Claim C9 (append advances the frontier), evaluated at the failing input. A
successful `Write` of the 12-byte entry PUT a = 1 to an empty file with
`Offset = 0` stores the record at offset 0 and leaves `Offset = 0`, not 12; a
second successful `Write`, of PUT b = 2, lands on the same offset and replaces
the first record. -/
theorem Write_keeps_Offset :
    (DBFile.Write { File := [], Offset := 0 } (NewEntry keyA val1 PUT) none)
        = ({ File := record keyA val1 PUT, Offset := 0 }, none)
      ∧ (NewEntry keyA val1 PUT).GetSize = 12
      ∧ ((DBFile.Write { File := [], Offset := 0 } (NewEntry keyA val1 PUT) none).1.Write
          (NewEntry keyB val2 PUT) none) = ({ File := record keyB val2 PUT, Offset := 0 }, none) := by
  decide

/-- Claim C10 (merge is all-or-nothing), evaluated at the failing input. `Open`
on the log PUT x = 9, DELETE a, DELETE b yields the index a ↦ 12, b ↦ 23; a
`Merge` whose second write to the merge file fails returns that error and
leaves the log file and `Offset` as they were, but the index now maps a to 0.
The same happens on the store whose log is PUT x = 9, PUT a = 1, PUT b = 2
with index a ↦ 12, b ↦ 24: after the failed `Merge` a is indexed at 0 and
`Get("a")` returns `"9"` instead of `"1"`. -/
theorem Merge_failure_changes_index :
    (Open (some threeRecords) { mergeFile := none } noFaults 4).map
        (fun r => (r.1.indexes keyA, r.1.indexes keyB, r.1.dbFile))
      = some (some 12, some 23, { File := threeRecords, Offset := 34 })
    ∧ ((Open (some threeRecords) { mergeFile := none } noFaults 4).bind
        (fun r => r.1.Merge noFaults secondWriteFails 4)).map
        (fun r => (r.2, r.1.indexes keyA, r.1.indexes keyB, r.1.dbFile))
      = some (some (.device 5), some 0, some 23, { File := threeRecords, Offset := 34 })
    ∧ (twoLive.indexes keyA, twoLive.Get keyA none) = (some 12, .ok val1)
    ∧ (twoLive.Merge noFaults secondWriteFails 4).map
        (fun r => (r.2, r.1.indexes keyA, r.1.Get keyA none, r.1.dbFile))
      = some (some (.device 5), some 0, .ok val9, twoLive.dbFile) := by
  decide

/-! Header validation and reads -/

theorem Uint32_eq_bigEndianValue (a b c d : Byte) :
    Uint32 [a, b, c, d] = bigEndianValue [a, b, c, d] := by
  simp only [Uint32, bigEndianValue, List.getD_cons_zero, List.getD_cons_succ, List.foldl_cons,
    List.foldl_nil]
  omega

theorem Uint16_eq_bigEndianValue (a b : Byte) : Uint16 [a, b] = bigEndianValue [a, b] := by
  simp only [Uint16, bigEndianValue, List.getD_cons_zero, List.getD_cons_succ, List.foldl_cons,
    List.foldl_nil]
  omega

theorem Decode_of_ten (buf : Bytes) (h : 10 ≤ buf.length) :
    Decode buf = .ok { Key := [], Value := [], KeySize := bigEndianValue (slice buf 0 4),
                       ValueSize := bigEndianValue (slice buf 4 8),
                       Mark := bigEndianValue (slice buf 8 10) } := by
  match buf, h with
  | b0 :: b1 :: b2 :: b3 :: b4 :: b5 :: b6 :: b7 :: b8 :: b9 :: rest, _ =>
    have h1 : slice (b0 :: b1 :: b2 :: b3 :: b4 :: b5 :: b6 :: b7 :: b8 :: b9 :: rest) 0 4
        = [b0, b1, b2, b3] := by simp [slice]
    have h2 : slice (b0 :: b1 :: b2 :: b3 :: b4 :: b5 :: b6 :: b7 :: b8 :: b9 :: rest) 4 8
        = [b4, b5, b6, b7] := by simp [slice]
    have h3 : slice (b0 :: b1 :: b2 :: b3 :: b4 :: b5 :: b6 :: b7 :: b8 :: b9 :: rest) 8 10
        = [b8, b9] := by simp [slice]
    unfold Decode
    rw [if_neg (by simp), h1, h2, h3, Uint32_eq_bigEndianValue, Uint32_eq_bigEndianValue,
      Uint16_eq_bigEndianValue]

/-- Claim C11 as stated fails. `Decode` of the ten-byte header with key size 1,
value size 1 and mark 2 returns an entry with `Mark = 2` and no error, and
`Decode` of the nil slice, which has no capacity, panics instead of returning an
error. -/
theorem Decode_accepts_any_mark :
    headerMarkTwo.length = 10
      ∧ Decode headerMarkTwo
          = .ok { Key := [], Value := [], KeySize := 1, ValueSize := 1, Mark := 2 }
      ∧ Decode [] = .error .panic := by
  decide

/-- Claim C11, amended. `Decode` validates nothing: for every input of at least
ten bytes, whatever its mark field, it returns with no error the entry whose
`KeySize`, `ValueSize` and `Mark` are the big-endian numbers in bytes 0..3,
4..7 and 8..9, with nil key and value. -/
theorem Decode_never_errors (buf : Bytes) (h : 10 ≤ buf.length) :
    Decode buf = .ok { Key := [], Value := [], KeySize := bigEndianValue (slice buf 0 4),
                       ValueSize := bigEndianValue (slice buf 4 8),
                       Mark := bigEndianValue (slice buf 8 10) } :=
  Decode_of_ten buf h

theorem Decode_never_errors_witness :
    10 ≤ headerMarkTwo.length
      ∧ Decode headerMarkTwo
          = .ok { Key := [], Value := [],
                  KeySize := bigEndianValue (slice headerMarkTwo 0 4),
                  ValueSize := bigEndianValue (slice headerMarkTwo 4 8),
                  Mark := bigEndianValue (slice headerMarkTwo 8 10) } :=
  ⟨by decide, Decode_never_errors headerMarkTwo (by decide)⟩

/-- Claim C12 (read bounds check), evaluated at the failing input. On the
11-byte file whose header announces a one-byte key and a one-byte value and
which ends after the key byte, `offset + 10 + key_size + value_size` is 12, past
the end of the file, yet `Read(0)` returns an entry with no error; its `Value`
is one zero byte, a byte the file does not hold. -/
theorem Read_past_end_of_file :
    tornRecord.length = 11
      ∧ DBFile.Read { File := tornRecord, Offset := 11 } 0 none
          = .ok { Key := keyA, Value := [0], KeySize := 1, ValueSize := 1, Mark := PUT } := by
  decide

/-- Claim C13 (Open propagates scan errors), evaluated at the failing input.
When the header read at offset 0 fails with a device error, `Open` on the log
PUT a = 1, DELETE a returns a store and a nil error, with an empty index, while
`Merge` on a store meeting the same failure returns the error. -/
theorem Open_swallows_read_error :
    readFailsAtZero 0 = some (.device 5)
      ∧ DBFile.Read (newInternal (some putThenDelete)) 0 (readFailsAtZero 0)
          = .error (.device 5)
      ∧ (Open (some putThenDelete) { mergeFile := none } readFailsAtZero 1).map
          (fun r => (r.2, r.1.indexes keyA)) = some (none, none)
      ∧ (twoLive.Merge readFailsAtZero noWriteFaults 1).map (fun r => r.2)
          = some (some (.device 5)) := by
  decide

/-- Claim C14 (idempotent delete). For every store state, every device
behaviour and every key that is empty or absent from the index, `Del(key)`
returns nil and the store is unchanged: same index, same log bytes, same
`Offset`. -/
theorem Del_absent_noop (db : MiniDB) (key : Bytes) (f : Option WriteFault)
    (h : key = [] ∨ db.indexes key = none) :
    (db.Del key f).2 = none
      ∧ (db.Del key f).1.indexes = db.indexes
      ∧ (db.Del key f).1.dbFile.File = db.dbFile.File
      ∧ (db.Del key f).1 = db := by
  have hd : db.Del key f = (db, none) := by
    unfold MiniDB.Del
    by_cases hk : key.length = 0
    · rw [if_pos hk]
    · rw [if_neg hk]
      rcases h with h | h
      · exact absurd (by simp [h]) hk
      · simp [MiniDB.exist, h]
  rw [hd]
  exact ⟨rfl, rfl, rfl, rfl⟩

theorem Del_absent_noop_witness :
    (keyB = [] ∨ (emptyStore.Put keyA val1 none).1.indexes keyB = none)
      ∧ ((emptyStore.Put keyA val1 none).1.Del keyB none).2 = none
      ∧ ((emptyStore.Put keyA val1 none).1.Del keyB none).1.indexes
          = (emptyStore.Put keyA val1 none).1.indexes
      ∧ ((emptyStore.Put keyA val1 none).1.Del keyB none).1.dbFile.File
          = (emptyStore.Put keyA val1 none).1.dbFile.File
      ∧ ((emptyStore.Put keyA val1 none).1.Del keyB none).1 = (emptyStore.Put keyA val1 none).1 :=
  ⟨Or.inr (by decide),
    Del_absent_noop (emptyStore.Put keyA val1 none).1 keyB none (Or.inr (by decide))⟩

/-! Merge and the scan loops -/

/-- Claim C15 (merge never grows the log), evaluated at the failing input.
`Open` on the 11-byte log cut inside a tombstone, then a `Merge` that returns
nil, leaves a log of 15 bytes. The same happens with no file given from outside:
a first session on an empty directory, `Put("a", fakeTail)` then `Put("a","")`,
leaves a 22-byte log; after `Open` on it, a `Merge` that returns nil leaves a log
of 31 bytes. -/
theorem Merge_grows_log :
    tornTombstone.length = 11
      ∧ ((Open (some tornTombstone) { mergeFile := none } noFaults 2).bind
          (fun r => r.1.Merge noFaults noWriteFaults 2)).map
          (fun r => (r.2, r.1.dbFile.File.length)) = some (none, 15)
      ∧ sessionOneLog.length = 22
      ∧ ((Open (some sessionOneLog) { mergeFile := none } noFaults 3).bind
          (fun r => r.1.Merge noFaults noWriteFaults 3)).map
          (fun r => (r.2, r.1.dbFile.File.length)) = some (none, 31) := by
  decide

/-- Claim C16 (encoded size formula), evaluated at the failing input. For the
entry with `KeySize = 2^32 - 1` and `ValueSize = 0`, `GetSize()` is 9, while
`10 + KeySize + ValueSize` is 4294967305. -/
theorem GetSize_wraps :
    maxKeyEntry.GetSize = 9
      ∧ 10 + maxKeyEntry.KeySize + maxKeyEntry.ValueSize = 4294967305
      ∧ maxKeyEntry.KeySize < 2 ^ 32 ∧ maxKeyEntry.ValueSize < 2 ^ 32 := by
  decide

/-- Claim C17 (merge selects no dead record), evaluated at the failing input.
After `Open` on the well-formed log PUT a = 1, DELETE a, the scan of `Merge`
collects exactly one entry, the DELETE record of `"a"`. -/
theorem Merge_scan_collects_tombstone :
    (Open (some putThenDelete) { mergeFile := none } noFaults 3).bind
        (fun r => r.1.mergeScan noFaults 3 0 [])
      = some (.ok [{ Key := keyA, Value := [], KeySize := 1, ValueSize := 0, Mark := DELETE }]) := by
  decide

theorem Read_sizes (df : DBFile) (off ks vs m : Nat)
    (hrd : (ReadAt df.File (List.replicate entryHeaderSize 0) off).2 = none)
    (hdec : Decode (ReadAt df.File (List.replicate entryHeaderSize 0) off).1
      = .ok { Key := [], Value := [], KeySize := ks, ValueSize := vs, Mark := m }) :
    ∃ e, df.Read off none = .ok e ∧ e.KeySize = ks ∧ e.ValueSize = vs ∧ e.Mark = m := by
  unfold DBFile.Read
  rcases hr : ReadAt df.File (List.replicate entryHeaderSize 0) off with ⟨buf, err⟩
  rw [hr] at hrd hdec
  simp only at hrd hdec
  subst hrd
  simp only [hr, hdec]
  by_cases hk : ks > 0 <;> by_cases hv : vs > 0 <;> simp [hk, hv]

theorem Read_wrapHeader (df : DBFile) (h : df.File = wrapHeader) :
    ∃ e, df.Read 0 none = .ok e ∧ e.GetSize = 0 := by
  obtain ⟨e, he, hk, hv, _⟩ := Read_sizes df 0 4294967286 0 0 (by rw [h]; decide)
    (by rw [h]; decide)
  refine ⟨e, he, ?_⟩
  simp only [Entry.GetSize, hk, hv, entryHeaderSize]
  decide

theorem loadLoop_wrapHeader (fuel : Nat) :
    ∀ indexes, MiniDB.loadLoop noFaults fuel (wrapStore indexes) 0 = none := by
  induction fuel with
  | zero => intro indexes; rfl
  | succ n ih =>
    intro indexes
    obtain ⟨e, he, hs⟩ := Read_wrapHeader (wrapStore indexes).dbFile rfl
    unfold MiniDB.loadLoop
    simp only [noFaults, he, hs, Nat.add_zero]
    exact ih _

theorem mergeScan_wrapHeader (indexes : Index) (fuel : Nat) :
    ∀ validEntries, (wrapStore indexes).mergeScan noFaults fuel 0 validEntries = none := by
  induction fuel with
  | zero => intro validEntries; rfl
  | succ n ih =>
    intro validEntries
    obtain ⟨e, he, hs⟩ := Read_wrapHeader (wrapStore indexes).dbFile rfl
    unfold MiniDB.mergeScan
    simp only [noFaults, he, hs, Nat.add_zero]
    exact ih _

/-- Claim C19 (the log scan is finite), evaluated at the failing input. The
ten-byte log FF FF FF F6 00 00 00 00 00 00 decodes to an entry of key size
`2^32 - 10` whose `GetSize()` is 0, so the scan offset stays at 0: with every
amount of fuel the loop of `loadIndexesFromFile` (hence `Open`) and the scan of
`Merge` are still running when the fuel is used up. -/
theorem scan_never_ends :
    (Decode wrapHeader).map (fun e => (e.KeySize, e.ValueSize, e.GetSize))
        = .ok (4294967286, 0, 0)
      ∧ (∀ fuel, Open (some wrapHeader) { mergeFile := none } noFaults fuel = none)
      ∧ (∀ indexes fuel, (wrapStore indexes).Merge noFaults noWriteFaults fuel = none) := by
  refine ⟨by decide, ?_, ?_⟩
  · intro fuel
    have := loadLoop_wrapHeader fuel Index.empty
    simp only [Open, MiniDB.loadIndexesFromFile]
    have hw : ({ indexes := Index.empty, dbFile := newInternal (some wrapHeader),
                 dirPath := { mergeFile := none } } : MiniDB) = wrapStore Index.empty := rfl
    rw [hw, this]
  · intro indexes fuel
    unfold MiniDB.Merge
    rw [mergeScan_wrapHeader indexes fuel []]

end Minidb
